import Mathlib

/-!
Verification of the shape-specification parser and matcher of
`jaxtyping/array_types.py` (dimension tokens, the per-scope dimension memo,
`_check_dims`, `_MetaAbstractArray._check_shape`,
`_MetaAbstractArray.__instancecheck__`, and the dim-string parser
`_MetaAbstractDtype.__getitem__`).

The Python code is embedded shallowly:

* the memo `Dict[str, Union[int, Tuple[int]]]` becomes an insertion-ordered
  association list `Memo` (lookup returns the value of the first matching
  key; insertion overwrites in place, preserving dict order);
* in-place mutation of the memo becomes explicit state passing: each checking
  function returns the memo in the state the Python dict object would be in
  at the corresponding `return`;
* Python exceptions (`AssertionError`, `AttributeError`, `TypeError`,
  `IndexError`, `ValueError`) become `none` / `Except.error` results;
* the memo stack `storage.memo_stack` (a Python list used as a stack, with
  the top at index `-1`) becomes a `List Memo` with the top at the head;
* a concrete `jnp.ndarray` is abstracted by the three facts the matcher
  reads from it (`isinstance(obj, jnp.ndarray)`, `obj.dtype`,
  `obj.shape` / `obj.ndim`), collected in the structure `Obj`;
* dtypes are abstracted as strings; `cls.dtypes` is `Option (List String)`
  with `none` playing the role of the `_any_dtype` sentinel.
-/

set_option maxRecDepth 4000

namespace Jaxtyping

/-- A value stored in the dimension memo: Python stores either an `int`
(bound by a `_NamedDim`) or a tuple of ints (bound by a `_NamedVariadicDim`). -/
inductive MemoVal where
  | size (n : Nat)
  | shape (s : List Nat)
deriving DecidableEq

/-- The per-scope memo `Dict[str, Union[int, Tuple[int]]]`, embedded as an
insertion-ordered association list. -/
abbrev Memo := List (String × MemoVal)

/-- `memo[name]` lookup: value of the first matching key, `none` on `KeyError`. -/
def memoFind (memo : Memo) (name : String) : Option MemoVal :=
  match memo with
  | [] => none
  | (k, v) :: rest => if k = name then some v else memoFind rest name

/-- `memo[name] = v`: overwrite the first matching key in place (dicts keep
the original insertion position), or append a fresh binding at the end. -/
def memoInsert (memo : Memo) (name : String) (v : MemoVal) : Memo :=
  match memo with
  | [] => [(name, v)]
  | (k, w) :: rest =>
    if k = name then (name, v) :: rest else (k, w) :: memoInsert rest name v

/-- A dimension token: `_anonymous_dim`, `_anonymous_variadic_dim`,
`_FixedDim`, `_NamedDim` or `_NamedVariadicDim`.  `_FixedDim.size` is an
`Int` because Python `int(...)` also accepts signed numerals. -/
inductive Dim where
  | anonymous
  | anonymousVariadic
  | fixed (size : Int) (broadcastable : Bool)
  | named (name : String) (broadcastable : Bool)
  | namedVariadic (name : String) (broadcastable : Bool)
deriving DecidableEq

/-- The class attributes of a generated `_MetaAbstractArray` class:
`dtypes` (`none` = the `_any_dtype` sentinel), `dims`, `index_variadic`. -/
structure Decl where
  dtypes : Option (List String)
  dims : List Dim
  index_variadic : Option Nat
deriving DecidableEq

/-- The facts `__instancecheck__` reads off the checked object:
whether `isinstance(obj, jnp.ndarray)` holds, `obj.dtype`, and `obj.shape`
(`obj.ndim` is the length of the shape). -/
structure Obj where
  is_ndarray : Bool
  dtype : String
  shape : List Nat

/-- The `for cls_dim, obj_size in zip(cls_dims, obj_shape)` loop body of
`_check_dims`.  `none` models an exception escaping the loop:
`_anonymous_variadic_dim` has no `broadcastable` attribute
(`AttributeError`), and a `_NamedVariadicDim` that survives the
broadcastable test fails the `assert type(cls_dim) is _NamedDim`. -/
def check_dims_go (cls_dims : List Dim) (obj_shape : List Nat) (memo : Memo) :
    Option (Bool × Memo) :=
  match cls_dims, obj_shape with
  | [], _ => some (true, memo)
  | _ :: _, [] => some (true, memo)
  | cls_dim :: ds, obj_size :: ss =>
    match cls_dim with
    | .anonymous => check_dims_go ds ss memo
    | .anonymousVariadic => none
    | .fixed size bcast =>
      if bcast = true ∧ obj_size = 1 then check_dims_go ds ss memo
      else if size ≠ (obj_size : Int) then some (false, memo)
      else check_dims_go ds ss memo
    | .named name bcast =>
      if bcast = true ∧ obj_size = 1 then check_dims_go ds ss memo
      else
        match memoFind memo name with
        | none => check_dims_go ds ss (memoInsert memo name (.size obj_size))
        | some v =>
          if v ≠ .size obj_size then some (false, memo) else check_dims_go ds ss memo
    | .namedVariadic _ bcast =>
      if bcast = true ∧ obj_size = 1 then check_dims_go ds ss memo
      else none

/-- `_check_dims`: the `assert len(cls_dims) == len(obj_shape)` guard
(`none` on assertion failure), then the pairwise loop. -/
def check_dims (cls_dims : List Dim) (obj_shape : List Nat) (memo : Memo) :
    Option (Bool × Memo) :=
  if cls_dims.length = obj_shape.length then check_dims_go cls_dims obj_shape memo
  else none

/-- The `for old_size, new_size in zip(variadic_shape, obj_shape)` loop of
`_check_shape` that builds `new_variadic_shape`, with its early
`return False` modelled as `none`. -/
def reconcileBroadcast (variadic_shape obj_shape : List Nat) : Option (List Nat) :=
  match variadic_shape, obj_shape with
  | [], _ => some []
  | _ :: _, [] => some []
  | old_size :: os, new_size :: ns =>
    if old_size = 1 then (reconcileBroadcast os ns).map (fun r => new_size :: r)
    else if new_size ≠ 1 ∧ old_size ≠ new_size then none
    else (reconcileBroadcast os ns).map (fun r => old_size :: r)

/-- The variadic-group part of `_check_shape` (its final `if variadic_dim is
not _anonymous_variadic_dim` block), applied to the middle span
`sub = obj.shape[i:j]`.  `_NamedDim` carries the same `name`/`broadcastable`
attributes as `_NamedVariadicDim`, so it takes the same path; the sentinel
`_anonymous_dim` and `_FixedDim` have no `name` attribute
(`AttributeError`, modelled as `none`), and `len(variadic_shape)` on a
stored `int` raises `TypeError` (also `none`). -/
def check_variadic (variadic_dim : Dim) (sub : List Nat) (memo : Memo) :
    Option (Bool × Memo) :=
  match variadic_dim with
  | .anonymousVariadic => some (true, memo)
  | .namedVariadic name bcast
  | .named name bcast =>
    match memoFind memo name with
    | none => some (true, memoInsert memo name (.shape sub))
    | some stored =>
      if bcast = true then
        match stored with
        | .size _ => none
        | .shape variadic_shape =>
          if variadic_shape.length ≠ sub.length then some (false, memo)
          else
            match reconcileBroadcast variadic_shape sub with
            | none => some (false, memo)
            | some r => some (true, memoInsert memo name (.shape r))
      else some (decide (stored = .shape sub), memo)
  | .anonymous => none
  | .fixed _ _ => none

/-- `_MetaAbstractArray._check_shape`.  Python's negative slice index
`j = -(len(cls.dims) - i - 1)` is carried as the nonnegative count
`m = len(cls.dims) - i - 1` of suffix tokens: `xs[j:]` is the last `m`
elements and `xs[i:j]` is `xs[i:]` with the last `m` elements removed
(with `j = None` when `m = 0`). -/
def check_shape (cls : Decl) (shape : List Nat) (memo : Memo) :
    Option (Bool × Memo) :=
  match cls.index_variadic with
  | none =>
    if shape.length ≠ cls.dims.length then some (false, memo)
    else check_dims cls.dims shape memo
  | some i =>
    if shape.length < cls.dims.length - 1 then some (false, memo)
    else
      let m := cls.dims.length - i - 1
      match check_dims (cls.dims.take i) (shape.take i) memo with
      | none => none
      | some (false, memo1) => some (false, memo1)
      | some (true, memo1) =>
        let suffixResult :=
          if m = 0 then some (true, memo1)
          else check_dims (cls.dims.drop (cls.dims.length - m))
                 (shape.drop (shape.length - m)) memo1
        match suffixResult with
        | none => none
        | some (false, memo2) => some (false, memo2)
        | some (true, memo2) =>
          let sub := if m = 0 then shape.drop i
                     else (shape.take (shape.length - m)).drop i
          match cls.dims[i]? with
          | none => none
          | some variadic_dim => check_variadic variadic_dim sub memo2

/-- The dtype short-circuit of `__instancecheck__`:
`cls.dtypes is not _any_dtype and obj.dtype not in cls.dtypes`. -/
def dtype_rejects (cls : Decl) (obj : Obj) : Bool :=
  match cls.dtypes with
  | none => false
  | some ds => !(ds.contains obj.dtype)

/-- `_MetaAbstractArray.__instancecheck__`.  The memo stack has its top at
the head (Python indexes the top as `memo_stack[-1]`).  An empty stack uses
a throwaway memo that is never committed; otherwise the check runs on a
copy of the top entry, committed back only when the shape check passes. -/
def instancecheck (cls : Decl) (obj : Obj) (memo_stack : List Memo) :
    Option (Bool × List Memo) :=
  if obj.is_ndarray = false then some (false, memo_stack)
  else if dtype_rejects cls obj then some (false, memo_stack)
  else
    match memo_stack with
    | [] =>
      match check_shape cls obj.shape [] with
      | none => none
      | some (b, _) => some (b, [])
    | top :: rest =>
      match check_shape cls obj.shape top with
      | none => none
      | some (true, memo2) => some (true, memo2 :: rest)
      | some (false, _) => some (false, top :: rest)

/-! ## The dim-string parser `_MetaAbstractDtype.__getitem__` -/

/-- ASCII whitespace recognised by Python's `str.split()` with no argument. -/
def isPySpace (c : Char) : Bool :=
  c == ' ' || c == '\t' || c == '\n' || c == '\r' || c == '\x0b' || c == '\x0c'

/-- Worker for `str.split()`: accumulate the current (reversed) token,
emitting it at each whitespace run boundary; empty tokens are dropped. -/
def pySplitGo (cs : List Char) (cur : List Char) : List String :=
  match cs with
  | [] => if cur.isEmpty then [] else [String.mk cur.reverse]
  | c :: rest =>
    if isPySpace c then
      if cur.isEmpty then pySplitGo rest [] else String.mk cur.reverse :: pySplitGo rest []
    else pySplitGo rest (c :: cur)

/-- `dim_str.split()`: split on whitespace runs, dropping empty tokens. -/
def pySplit (s : String) : List String := pySplitGo s.data []

/-- `elem.endswith("#")`. -/
def endsHash (s : String) : Bool := s.data.getLast? == some '#'

/-- `elem[:-1]` for nonempty `elem`. -/
def strDropLast (s : String) : String := String.mk s.data.dropLast

/-- The token as classified after the broadcast marker is removed:
`elem[:-1]` when it ends with `#`, else the token itself. -/
def stripHash (tok : String) : String := if endsHash tok then strDropLast tok else tok

/-- Continuation of Python `int(...)` digit parsing after a first digit:
digits with single underscores allowed only between two digits. -/
def pyDigits : List Char → Nat → Option Nat
  | [], acc => some acc
  | c :: rest, acc =>
    if c.isDigit then pyDigits rest (acc * 10 + (c.toNat - 48))
    else if c = '_' then
      match rest with
      | [] => none
      | c2 :: rest2 =>
        if c2.isDigit then pyDigits rest2 (acc * 10 + (c2.toNat - 48)) else none
    else none

/-- Python `int(...)` digit part: at least one leading digit. -/
def pyIntStart : List Char → Option Nat
  | [] => none
  | c :: rest => if c.isDigit then pyDigits rest (c.toNat - 48) else none

/-- Python `int(elem)` on a whitespace-free token: an optional sign followed
by ASCII digits with single underscores between digits; `none` models the
`ValueError` for anything else.  (Non-ASCII decimal digits, which CPython
would also accept, are outside the modelled character set.) -/
def pyInt (s : String) : Option Int :=
  match s.data with
  | '+' :: rest => (pyIntStart rest).map (fun n => (n : Int))
  | '-' :: rest => (pyIntStart rest).map (fun n => -(n : Int))
  | l => (pyIntStart l).map (fun n => (n : Int))

/-- The failure modes of `__getitem__`: the three `ValueError`s of the
parsing loop and entry guard, the `IndexError` from `elem[0]` on a token
that is empty after stripping `#`, and the `ValueError` for an
unrecognised `_array_name_format`. -/
inductive ParseError where
  | notAString
  | commaInDims
  | multipleVariadic
  | indexError
  | badNameFormat (fmt : String)
deriving DecidableEq

/-- The message attached to each failure mode in the source. -/
def errMessage : ParseError → String
  | .notAString =>
    "Shape specification must be a string. Axes should be separated with spaces."
  | .commaInDims => "Dimensions should be separated with spaces, not commas"
  | .multipleVariadic => "Cannot have multiple variadic dimensions"
  | .indexError => "string index out of range"
  | .badNameFormat fmt => "array_name_format " ++ fmt ++ " not recognised"

/-- The `for index, elem in enumerate(dim_str.split())` loop of
`__getitem__`, carrying `index`, `index_variadic` and the reversed list of
dims built so far. -/
def parseDims : List String → Nat → Option Nat → List Dim →
    Except ParseError (List Dim × Option Nat)
  | [], _, index_variadic, acc => .ok (acc.reverse, index_variadic)
  | elem :: rest, index, index_variadic, acc =>
    if elem.data.contains ',' then .error .commaInDims
    else
      let broadcastable := endsHash elem
      let elem2 := if broadcastable then strDropLast elem else elem
      match pyInt elem2 with
      | some n => parseDims rest (index + 1) index_variadic (.fixed n broadcastable :: acc)
      | none =>
        if elem2 = "_" then parseDims rest (index + 1) index_variadic (.anonymous :: acc)
        else if elem2 = "..." then
          match index_variadic with
          | some _ => .error .multipleVariadic
          | none => parseDims rest (index + 1) (some index) (.anonymousVariadic :: acc)
        else
          match elem2.data with
          | [] => .error .indexError
          | c :: cs =>
            if c = '*' then
              match index_variadic with
              | some _ => .error .multipleVariadic
              | none =>
                parseDims rest (index + 1) (some index)
                  (.namedVariadic (String.mk cs) broadcastable :: acc)
            else parseDims rest (index + 1) index_variadic (.named elem2 broadcastable :: acc)

/-- The argument of `__getitem__`: a string, or any non-string object
(rejected by the `isinstance(dim_str, str)` guard). -/
inductive DimStrArg where
  | str (s : String)
  | nonStr

/-- `_MetaAbstractDtype.__getitem__`: reject non-strings, run the token
loop, then build the class name from the process-wide
`_array_name_format` (the name only affects diagnostics, so only its
error path is retained) and assemble the class attributes. -/
def getitem (array_name_format : String) (cls_dtypes : Option (List String))
    (dim_str : DimStrArg) : Except ParseError Decl :=
  match dim_str with
  | .nonStr => .error .notAString
  | .str s =>
    match parseDims (pySplit s) 0 none [] with
    | .error e => .error e
    | .ok (dims, index_variadic) =>
      if array_name_format = "dtype_and_shape" then .ok ⟨cls_dtypes, dims, index_variadic⟩
      else if array_name_format = "array" then .ok ⟨cls_dtypes, dims, index_variadic⟩
      else .error (.badNameFormat array_name_format)

/-- A token that takes one of the two variadic branches of the loop:
after stripping `#` it is `...`, or it starts with `*`. -/
def isVariadicTok (tok : String) : Bool :=
  let e := stripHash tok
  if e = "..." then true
  else match e.data with
    | c :: _ => c == '*'
    | [] => false

/-- Number of variadic tokens in a token list. -/
def countVariadicToks (toks : List String) : Nat := (toks.filter isVariadicTok).length

/-- The single dim a successfully processed token contributes (the loop
appends exactly one dim per token; the `[]` case is unreachable for
tokens the loop accepts). -/
def tokenToDim (tok : String) : Dim :=
  let broadcastable := endsHash tok
  let e := stripHash tok
  match pyInt e with
  | some n => .fixed n broadcastable
  | none =>
    if e = "_" then .anonymous
    else if e = "..." then .anonymousVariadic
    else match e.data with
      | [] => .anonymous
      | c :: cs =>
        if c = '*' then .namedVariadic (String.mk cs) broadcastable
        else .named e broadcastable

/-! ## The `@ft.lru_cache` memoisation of `__getitem__` (successful results
only: `lru_cache` does not cache raised exceptions). -/

/-- The cache state keyed by the exact source string. -/
abbrev DeclCache := List (String × Decl)

/-- Cache lookup. -/
def cacheFind (cache : DeclCache) (s : String) : Option Decl :=
  match cache with
  | [] => none
  | (k, d) :: rest => if k = s then some d else cacheFind rest s

/-- `__getitem__` as called through the `lru_cache` wrapper: return the
cached class on a hit; otherwise parse, caching a successful result. -/
def getitemCached (array_name_format : String) (cls_dtypes : Option (List String))
    (cache : DeclCache) (s : String) : Except ParseError Decl × DeclCache :=
  match cacheFind cache s with
  | some d => (.ok d, cache)
  | none =>
    match getitem array_name_format cls_dtypes (.str s) with
    | .ok d => (.ok d, (s, d) :: cache)
    | .error e => (.error e, cache)

/-- A cache is well formed when every entry is the result an uncached parse
of its key would produce. -/
def cacheWF (array_name_format : String) (cls_dtypes : Option (List String))
    (cache : DeclCache) : Prop :=
  ∀ s d, cacheFind cache s = some d →
    getitem array_name_format cls_dtypes (.str s) = .ok d

/-! ## `_MetaAbstractDtype.__instancecheck__` -/

/-- The message of the `RuntimeError` raised by
`_MetaAbstractDtype.__instancecheck__`. -/
def dtypeErrMsg (clsName : String) : String :=
  "Do not use `isinstance(x, jaxtyping." ++ clsName ++
    "`. If you want to check just the dtype of an array, then use `jaxtyping." ++
    clsName ++ "[\"...\"]`."

/-- `_MetaAbstractDtype.__instancecheck__`: unconditionally raises
`RuntimeError`, for every checked object. -/
def dtype_instancecheck (clsName : String) (_obj : Obj) : Except String Bool :=
  .error (dtypeErrMsg clsName)

instance {ε α : Type} [DecidableEq ε] [DecidableEq α] : DecidableEq (Except ε α)
  | .ok a, .ok b =>
    if h : a = b then .isTrue (by rw [h]) else .isFalse (by simp [h])
  | .ok _, .error _ => .isFalse (by simp)
  | .error _, .ok _ => .isFalse (by simp)
  | .error e, .error f =>
    if h : e = f then .isTrue (by rw [h]) else .isFalse (by simp [h])

/-! ## Claims about the check entrypoint -/

/-- Claim C10: for every object that is not an array of the underlying
array library, `__instancecheck__` returns `false` (it does not raise) with
the memo stack untouched, before consulting the dtype set or the scope
memo: the result is the same for every declaration (including one
accepting any dtype and any shape) and every stack. -/
theorem C10_nonarray_returns_false (cls : Decl) (obj : Obj) (memo_stack : List Memo)
    (h : obj.is_ndarray = false) :
    instancecheck cls obj memo_stack = some (false, memo_stack) := by
  simp [instancecheck, h]

/-- Witness for C10 at a concrete non-array object, a concrete declaration
and a nonempty concrete stack. -/
theorem C10_witness :
    instancecheck ⟨none, [.anonymousVariadic], some 0⟩ ⟨false, "float32", [3]⟩
      [[("n", .size 7)]] = some (false, [[("n", .size 7)]]) :=
  C10_nonarray_returns_false ⟨none, [.anonymousVariadic], some 0⟩
    ⟨false, "float32", [3]⟩ [[("n", .size 7)]] rfl

/-- Claim C1: whenever `__instancecheck__` returns `false`, the committed
memo stack after the check equals the stack before it — the matcher works
on a private copy of the top entry and commits it back only on success. -/
theorem C1_failed_match_leaves_stack (cls : Decl) (obj : Obj)
    (memo_stack stack2 : List Memo)
    (h : instancecheck cls obj memo_stack = some (false, stack2)) :
    stack2 = memo_stack := by
  unfold instancecheck at h
  split at h
  · simp_all
  · split at h
    · simp_all
    · split at h
      · split at h <;> simp_all
      · split at h <;> simp_all

/-- Witness for C1: a failed match (spec `n n` against shape `(3, 4)`)
over a nonempty stack carrying an unrelated binding. -/
theorem C1_witness :
    instancecheck ⟨none, [.named "n" false, .named "n" false], none⟩
        ⟨true, "float32", [3, 4]⟩ [[("q", .size 9)]] =
      some (false, [[("q", .size 9)]]) ∧
    ([[("q", .size 9)]] : List Memo) = [[("q", .size 9)]] :=
  ⟨by decide,
   C1_failed_match_leaves_stack ⟨none, [.named "n" false, .named "n" false], none⟩
     ⟨true, "float32", [3, 4]⟩ [[("q", .size 9)]] [[("q", .size 9)]] (by decide)⟩

/-- Claim C9: directly testing membership in an element-type-only
declaration always fails loudly with the error message explaining the
two-argument form, never returning `false` (nor any boolean), for every
object. -/
theorem C9_dtype_instancecheck_raises (clsName : String) (obj : Obj) :
    dtype_instancecheck clsName obj = .error (dtypeErrMsg clsName) ∧
    ∀ b : Bool, dtype_instancecheck clsName obj ≠ .ok b :=
  ⟨rfl, fun b h => by simp [dtype_instancecheck] at h⟩

/-- Witness for C9 at the `f32` dtype class and a concrete float32 array
of the declared dtype. -/
theorem C9_witness :
    dtype_instancecheck "f32" ⟨true, "float32", [3]⟩ =
      .error (dtypeErrMsg "f32") ∧
    dtype_instancecheck "f32" ⟨true, "float32", [3]⟩ ≠ .ok false :=
  ⟨(C9_dtype_instancecheck_raises "f32" ⟨true, "float32", [3]⟩).1,
   (C9_dtype_instancecheck_raises "f32" ⟨true, "float32", [3]⟩).2 false⟩

/-! ## Claims about the per-axis checks -/

/-- Claim C5: a `Fixed(n, bcast)` token against a concrete axis size
succeeds iff `size == n`, or `bcast` holds and `size == 1`, never touching
the memo; the parsed spec `3#` matches shapes `(3,)` and `(1,)` and not
`(2,)`. -/
theorem C5_fixed_dim_semantics :
    (∀ (n : Int) (bcast : Bool) (size : Nat) (memo : Memo),
      check_dims [.fixed n bcast] [size] memo =
        some (decide (n = (size : Int) ∨ (bcast = true ∧ size = 1)), memo)) ∧
    getitem "dtype_and_shape" none (.str "3#") = .ok ⟨none, [.fixed 3 true], none⟩ ∧
    instancecheck ⟨none, [.fixed 3 true], none⟩ ⟨true, "float32", [3]⟩ [] =
      some (true, []) ∧
    instancecheck ⟨none, [.fixed 3 true], none⟩ ⟨true, "float32", [1]⟩ [] =
      some (true, []) ∧
    instancecheck ⟨none, [.fixed 3 true], none⟩ ⟨true, "float32", [2]⟩ [] =
      some (false, []) := by
  refine ⟨fun n bcast size memo => ?_, by decide, by decide, by decide, by decide⟩
  by_cases h1 : bcast = true ∧ size = 1
  · simp [check_dims, check_dims_go, h1]
  · by_cases h2 : n = (size : Int) <;> simp [check_dims, check_dims_go, h1, h2]

/-- Claim C4: a `Named(name, bcast)` token against a concrete axis size:
if `bcast` holds and the size is 1 it succeeds without writing the memo;
otherwise an unbound name is bound to the size and the check succeeds;
otherwise the check succeeds iff the bound value equals the size.  The
parsed spec `n n` matches shape `(3, 3)` and not `(3, 4)`. -/
theorem C4_named_dim_semantics :
    (∀ (name : String) (bcast : Bool) (size : Nat) (memo : Memo),
      (bcast = true ∧ size = 1 →
        check_dims [.named name bcast] [size] memo = some (true, memo)) ∧
      (¬(bcast = true ∧ size = 1) → memoFind memo name = none →
        check_dims [.named name bcast] [size] memo =
          some (true, memoInsert memo name (.size size))) ∧
      (∀ v, ¬(bcast = true ∧ size = 1) → memoFind memo name = some v →
        check_dims [.named name bcast] [size] memo =
          some (decide (v = .size size), memo))) ∧
    getitem "dtype_and_shape" none (.str "n n") =
      .ok ⟨none, [.named "n" false, .named "n" false], none⟩ ∧
    instancecheck ⟨none, [.named "n" false, .named "n" false], none⟩
      ⟨true, "float32", [3, 3]⟩ [] = some (true, []) ∧
    instancecheck ⟨none, [.named "n" false, .named "n" false], none⟩
      ⟨true, "float32", [3, 4]⟩ [] = some (false, []) := by
  refine ⟨fun name bcast size memo => ⟨?_, ?_, ?_⟩, by decide, by decide, by decide⟩
  · intro h1
    simp [check_dims, check_dims_go, h1]
  · intro h1 h2
    simp [check_dims, check_dims_go, h1, h2]
  · intro v h1 h2
    by_cases h3 : v = .size size <;> simp [check_dims, check_dims_go, h1, h2, h3]

/-- Witness for C4: all three cases at concrete inputs — a broadcastable
token against size 1 with a conflicting binding, an unbound name, and a
bound name checked against an equal and a different size. -/
theorem C4_witness :
    check_dims [.named "n" true] [1] [("n", .size 5)] =
      some (true, [("n", .size 5)]) ∧
    check_dims [.named "n" false] [3] [] = some (true, [("n", .size 3)]) ∧
    check_dims [.named "n" false] [3] [("n", .size 3)] =
      some (true, [("n", .size 3)]) ∧
    check_dims [.named "n" false] [4] [("n", .size 3)] =
      some (false, [("n", .size 3)]) := by
  refine ⟨(C4_named_dim_semantics.1 "n" true 1 [("n", .size 5)]).1 (by decide), ?_, ?_, ?_⟩
  · have h := (C4_named_dim_semantics.1 "n" false 3 []).2.1 (by decide) (by decide)
    simpa using h
  · have h := (C4_named_dim_semantics.1 "n" false 3 [("n", .size 3)]).2.2
      (.size 3) (by decide) (by decide)
    simpa using h
  · have h := (C4_named_dim_semantics.1 "n" false 4 [("n", .size 3)]).2.2
      (.size 3) (by decide) (by decide)
    simpa using h

/-! ## The broadcastable named-variadic group check -/

/-- The reconciliation loop returns its early `False` exactly when some
already-stored size and new size conflict: both differ from 1 and from
each other. -/
theorem reconcileBroadcast_none_iff (old new : List Nat) :
    reconcileBroadcast old new = none ↔
      (old.zip new).any (fun p => decide (p.1 ≠ 1 ∧ p.2 ≠ 1 ∧ p.2 ≠ p.1)) = true := by
  induction old generalizing new with
  | nil => simp [reconcileBroadcast]
  | cons o os ih =>
    cases new with
    | nil => simp [reconcileBroadcast]
    | cons n ns =>
      rcases eq_or_ne o 1 with h1 | h1
      · simp [reconcileBroadcast, h1, ih]
      · rcases eq_or_ne n 1 with hn | hn
        · have h2 : ¬(n ≠ 1 ∧ o ≠ n) := by simp [hn]
          subst hn
          simp [reconcileBroadcast, h1, h2, ih]
        · rcases eq_or_ne o n with ho | ho
          · have h2 : ¬(n ≠ 1 ∧ o ≠ n) := by simp [ho]
            subst ho
            simp [reconcileBroadcast, h1, hn, h2, ih]
          · have h2 : n ≠ 1 ∧ o ≠ n := ⟨hn, ho⟩
            simp [reconcileBroadcast, h1, hn, h2]
            exact Or.inl fun e => ho e.symm

/-- On success the reconciliation loop returns the elementwise choice
`new` where the stored size is 1, the stored size otherwise. -/
theorem reconcileBroadcast_some (old new r : List Nat) :
    reconcileBroadcast old new = some r →
      r = List.zipWith (fun o n => if o = 1 then n else o) old new := by
  induction old generalizing new r with
  | nil =>
    intro h
    simp [reconcileBroadcast] at h
    subst h
    simp
  | cons o os ih =>
    cases new with
    | nil =>
      intro h
      simp [reconcileBroadcast] at h
      subst h
      simp
    | cons n ns =>
      intro h
      by_cases h1 : o = 1
      · simp [reconcileBroadcast, h1] at h
        obtain ⟨r2, hr2, rfl⟩ := h
        simp [h1, ih _ _ hr2]
      · by_cases h2 : n ≠ 1 ∧ o ≠ n
        · simp [reconcileBroadcast, h1, h2] at h
        · simp [reconcileBroadcast, h1, h2] at h
          obtain ⟨r2, hr2, rfl⟩ := h
          simp [h1, ih _ _ hr2]

/-- Claim C2: for a broadcastable named-variadic token whose name is bound
in the memo, the group check fails when the stored and new sub-shapes
differ in length; with equal lengths it fails exactly when some position
has stored value and new value both different from 1 and from each other;
otherwise it succeeds and writes back the elementwise reconciliation
(`new` where the stored value is 1, the stored value otherwise), so a
dimension bound to 1 earlier widens in a later check in the same scope. -/
theorem C2_broadcast_variadic_reconciliation (name : String) (old sub : List Nat)
    (memo : Memo) (hbound : memoFind memo name = some (.shape old)) :
    (old.length ≠ sub.length →
      check_variadic (.namedVariadic name true) sub memo = some (false, memo)) ∧
    (old.length = sub.length →
      ((old.zip sub).any (fun p => decide (p.1 ≠ 1 ∧ p.2 ≠ 1 ∧ p.2 ≠ p.1)) = true →
        check_variadic (.namedVariadic name true) sub memo = some (false, memo)) ∧
      ((old.zip sub).any (fun p => decide (p.1 ≠ 1 ∧ p.2 ≠ 1 ∧ p.2 ≠ p.1)) = false →
        check_variadic (.namedVariadic name true) sub memo =
          some (true, memoInsert memo name
            (.shape (List.zipWith (fun o n => if o = 1 then n else o) old sub))))) := by
  refine ⟨fun hlen => ?_, fun hlen => ⟨fun hconf => ?_, fun hok => ?_⟩⟩
  · simp [check_variadic, hbound, hlen]
  · have hrec : reconcileBroadcast old sub = none :=
      (reconcileBroadcast_none_iff old sub).mpr hconf
    simp [check_variadic, hbound, hlen, hrec]
  · have hne : reconcileBroadcast old sub ≠ none := by
      intro hnone
      rw [reconcileBroadcast_none_iff, hok] at hnone
      exact Bool.false_ne_true hnone
    obtain ⟨r, hr⟩ := Option.ne_none_iff_exists'.mp hne
    have hzip := reconcileBroadcast_some old sub r hr
    simp [check_variadic, hbound, hlen, hr, hzip]

/-- Witness for C2, realising the spec's three-step scenario: with
`batch` bound to `(1, 4)`, a check against `(5, 4)` succeeds and widens
the binding to `(5, 4)`; a subsequent check against `(1, 9)` fails. -/
theorem C2_witness :
    check_variadic (.namedVariadic "batch" true) [5, 4] [("batch", .shape [1, 4])] =
      some (true, [("batch", .shape [5, 4])]) ∧
    check_variadic (.namedVariadic "batch" true) [1, 9] [("batch", .shape [5, 4])] =
      some (false, [("batch", .shape [5, 4])]) := by
  constructor
  · have h := ((C2_broadcast_variadic_reconciliation "batch" [1, 4] [5, 4]
      [("batch", .shape [1, 4])] (by decide)).2 (by decide)).2 (by decide)
    simpa using h
  · exact ((C2_broadcast_variadic_reconciliation "batch" [5, 4] [1, 9]
      [("batch", .shape [5, 4])] (by decide)).2 (by decide)).1 (by decide)

/-! ## Rank checking and variadic splitting -/

/-- Claim C3: with no variadic token the match fails unless the rank equals
the token count, and otherwise reduces to the pairwise in-order check; with
the variadic token at index `i` of `k` tokens the match fails when the rank
is below `k - 1`, and otherwise the prefix tokens check against the first
`i` axes, the suffix tokens against the last `k - i - 1` axes, and the
middle span (possibly empty) is consumed as a group by the variadic token —
stated by decomposing the shape as `pre ++ mid ++ suf`. -/
theorem C3_rank_and_variadic_split :
    (∀ (cls : Decl) (shape : List Nat) (memo : Memo), cls.index_variadic = none →
      (shape.length ≠ cls.dims.length → check_shape cls shape memo = some (false, memo)) ∧
      (shape.length = cls.dims.length →
        check_shape cls shape memo = check_dims cls.dims shape memo)) ∧
    (∀ (cls : Decl) (i : Nat) (shape : List Nat) (memo : Memo),
      cls.index_variadic = some i → shape.length < cls.dims.length - 1 →
      check_shape cls shape memo = some (false, memo)) ∧
    (∀ (dt : Option (List String)) (dpre dsuf : List Dim) (v : Dim)
        (pre mid suf : List Nat) (memo : Memo),
      pre.length = dpre.length → suf.length = dsuf.length →
      check_shape ⟨dt, dpre ++ v :: dsuf, some dpre.length⟩ (pre ++ mid ++ suf) memo =
        match check_dims dpre pre memo with
        | none => none
        | some (false, memo1) => some (false, memo1)
        | some (true, memo1) =>
          match check_dims dsuf suf memo1 with
          | none => none
          | some (false, memo2) => some (false, memo2)
          | some (true, memo2) => check_variadic v mid memo2) := by
  refine ⟨fun cls shape memo h => ⟨fun hne => ?_, fun heq => ?_⟩,
    fun cls i shape memo h hlt => ?_, ?_⟩
  · simp [check_shape, h, hne]
  · simp [check_shape, h, heq]
  · simp [check_shape, h, hlt]
  intro dt dpre dsuf v pre mid suf memo hpre hsuf
  have hguard : ¬ ((pre ++ mid ++ suf).length < (dpre ++ v :: dsuf).length - 1) := by
    simp only [List.length_append, List.length_cons]
    omega
  have hm : (dpre ++ v :: dsuf).length - dpre.length - 1 = dsuf.length := by
    simp only [List.length_append, List.length_cons]
    omega
  have e1 : (dpre ++ v :: dsuf).take dpre.length = dpre := List.take_left dpre (v :: dsuf)
  have e2 : (pre ++ mid ++ suf).take dpre.length = pre := by
    rw [← hpre, List.append_assoc, List.take_left]
  have e6 : (dpre ++ v :: dsuf)[dpre.length]? = some v := by
    rw [List.getElem?_append_right (Nat.le_refl _)]
    simp
  simp only [check_shape]
  rw [if_neg hguard, hm, e1, e2, e6]
  rcases h1 : check_dims dpre pre memo with _ | ⟨b1, memo1⟩
  · rfl
  rcases b1 with _ | _
  · rfl
  cases dsuf with
  | nil =>
    have hsuf0 : suf = [] := List.eq_nil_of_length_eq_zero (by rw [hsuf]; rfl)
    subst hsuf0
    have e5 : List.drop dpre.length (pre ++ mid) = mid := by
      rw [← hpre, List.drop_left]
    simp [check_dims, check_dims_go, e5]
  | cons d0 drest =>
    simp only [List.length_cons] at hsuf
    have hmne : ((d0 :: drest : List Dim)).length ≠ 0 := by simp
    have e3 : (dpre ++ v :: d0 :: drest).drop
        ((dpre ++ v :: d0 :: drest).length - (d0 :: drest : List Dim).length) =
        d0 :: drest := by
      have harith : (dpre ++ v :: d0 :: drest).length -
          (d0 :: drest : List Dim).length = (dpre ++ [v]).length := by
        simp only [List.length_append, List.length_cons, List.length_nil]
        omega
      rw [harith]
      have hsplit : dpre ++ v :: d0 :: drest = (dpre ++ [v]) ++ d0 :: drest := by simp
      rw [hsplit, List.drop_left]
    have harith2 : (pre ++ mid ++ suf).length - (d0 :: drest : List Dim).length =
        (pre ++ mid).length := by
      simp only [List.length_append, List.length_cons]
      omega
    have e4 : (pre ++ mid ++ suf).drop
        ((pre ++ mid ++ suf).length - (d0 :: drest : List Dim).length) = suf := by
      rw [harith2, List.drop_left]
    have e5 : ((pre ++ mid ++ suf).take
        ((pre ++ mid ++ suf).length - (d0 :: drest : List Dim).length)).drop
        dpre.length = mid := by
      rw [harith2, List.take_left, ← hpre, List.drop_left]
    simp only [if_neg hmne]
    rw [e3, e4]
    rcases h2 : check_dims (d0 :: drest) suf memo1 with _ | ⟨b2, memo2⟩
    · rfl
    rcases b2 with _ | _
    · rfl
    rw [e5]

/-- Witness for C3: the spec's variadic-absorption example
`a *batch b` against `(2, 5, 6, 7, 3)` (binding `batch = (5, 6, 7)`),
the zero-axis absorption against `(2, 3)` (binding `batch = ()`),
a rank failure below `k - 1`, and a no-variadic rank mismatch. -/
theorem C3_witness :
    check_shape ⟨none, [.named "a" false, .namedVariadic "batch" false,
        .named "b" false], some 1⟩ [2, 5, 6, 7, 3] [] =
      some (true, [("a", .size 2), ("b", .size 3), ("batch", .shape [5, 6, 7])]) ∧
    check_shape ⟨none, [.named "a" false, .namedVariadic "batch" false,
        .named "b" false], some 1⟩ [2, 3] [] =
      some (true, [("a", .size 2), ("b", .size 3), ("batch", .shape [])]) ∧
    check_shape ⟨none, [.named "a" false, .namedVariadic "batch" false,
        .named "b" false], some 1⟩ [7] [] = some (false, []) ∧
    check_shape ⟨none, [.named "a" false, .named "b" false, .named "c" false],
        none⟩ [1, 2] [("z", .size 0)] = some (false, [("z", .size 0)]) := by
  refine ⟨?_, ?_, ?_, ?_⟩
  · exact (C3_rank_and_variadic_split.2.2 none [.named "a" false] [.named "b" false]
      (.namedVariadic "batch" false) [2] [5, 6, 7] [3] [] rfl rfl).trans (by decide)
  · exact (C3_rank_and_variadic_split.2.2 none [.named "a" false] [.named "b" false]
      (.namedVariadic "batch" false) [2] [] [3] [] rfl rfl).trans (by decide)
  · exact C3_rank_and_variadic_split.2.1
      ⟨none, [.named "a" false, .namedVariadic "batch" false, .named "b" false], some 1⟩
      1 [7] [] rfl (by decide)
  · exact (C3_rank_and_variadic_split.1
      ⟨none, [.named "a" false, .named "b" false, .named "c" false], none⟩
      [1, 2] [("z", .size 0)] rfl).1 (by decide)

/-! ## Structure of the parsing loop -/

/-- Unfolding of one step of the parsing loop. -/
theorem parseDims_cons (tok : String) (rest : List String) (index : Nat)
    (iv : Option Nat) (acc : List Dim) :
    parseDims (tok :: rest) index iv acc =
      if tok.data.contains ',' then .error .commaInDims
      else match pyInt (stripHash tok) with
        | some n => parseDims rest (index + 1) iv (.fixed n (endsHash tok) :: acc)
        | none =>
          if stripHash tok = "_" then parseDims rest (index + 1) iv (.anonymous :: acc)
          else if stripHash tok = "..." then
            match iv with
            | some _ => .error .multipleVariadic
            | none => parseDims rest (index + 1) (some index) (.anonymousVariadic :: acc)
          else match (stripHash tok).data with
            | [] => .error .indexError
            | c :: cs =>
              if c = '*' then
                match iv with
                | some _ => .error .multipleVariadic
                | none => parseDims rest (index + 1) (some index)
                    (.namedVariadic (String.mk cs) (endsHash tok) :: acc)
              else parseDims rest (index + 1) iv (.named (stripHash tok) (endsHash tok) :: acc) :=
  rfl

/-- Unfolding of the variadic-token test. -/
theorem isVariadicTok_def (tok : String) :
    isVariadicTok tok =
      (if stripHash tok = "..." then true
       else match (stripHash tok).data with
            | c :: _ => c == '*'
            | [] => false) := rfl

/-- `int(...)` fails on the empty token. -/
theorem pyInt_nil_data (s : String) (h : s.data = []) : pyInt s = none := by
  unfold pyInt
  rw [h]
  rfl

/-- `int(...)` fails on a token starting with `*`. -/
theorem pyInt_data_star (s : String) (cs : List Char) (h : s.data = '*' :: cs) :
    pyInt s = none := by
  have hs : s = String.mk ('*' :: cs) := by
    cases s with
    | mk d => exact congrArg String.mk h
  rw [hs]
  rfl

/-- `str.split()` never yields an empty token. -/
theorem pySplitGo_data_ne_nil (cs : List Char) :
    ∀ cur tok, tok ∈ pySplitGo cs cur → tok.data ≠ [] := by
  induction cs with
  | nil =>
    intro cur tok htok
    rcases cur with _ | ⟨a, l⟩
    · simp [pySplitGo] at htok
    · simp [pySplitGo] at htok
      subst htok
      simp
  | cons c rest ih =>
    intro cur tok htok
    by_cases hsp : isPySpace c = true
    · rcases cur with _ | ⟨a, l⟩
      · simp [pySplitGo, hsp] at htok
        exact ih [] tok htok
      · simp [pySplitGo, hsp] at htok
        rcases htok with rfl | htok
        · simp
        · exact ih [] tok htok
    · have hsp2 : isPySpace c = false := by simpa using hsp
      simp [pySplitGo, hsp2] at htok
      exact ih (c :: cur) tok htok

/-- Tokens of `pySplit` are nonempty. -/
theorem pySplit_tok_ne_nil (s tok : String) (h : tok ∈ pySplit s) :
    tok.data ≠ [] :=
  pySplitGo_data_ne_nil s.data [] tok h

/-- For a nonempty token, stripping the broadcast marker empties it exactly
when the token is the bare marker `#`. -/
theorem stripHash_empty_iff (tok : String) (hne : tok.data ≠ []) :
    (stripHash tok).data = [] ↔ tok = "#" := by
  constructor
  · intro h
    unfold stripHash at h
    by_cases hh : endsHash tok = true
    · rw [if_pos hh] at h
      have hdl : tok.data.dropLast = [] := h
      rcases hdata : tok.data with _ | ⟨c, cs⟩
      · exact absurd hdata hne
      · rcases cs with _ | ⟨c2, cs2⟩
        · have hlast : tok.data.getLast? = some c := by rw [hdata]; rfl
          unfold endsHash at hh
          rw [hlast] at hh
          have hc : c = '#' := by simpa using hh
          subst hc
          cases tok with
          | mk d =>
            have hd : d = ['#'] := hdata
            rw [hd]
        · rw [hdata] at hdl
          simp at hdl
    · rw [if_neg hh] at h
      exact absurd h hne
  · intro h
    subst h
    rfl

/-- The parsing loop succeeds exactly when no remaining token contains a
comma, none is empty after stripping `#`, and the number of variadic
tokens (counting one already seen, when `iv` is set) is at most one. -/
theorem parseDims_ok_iff (toks : List String) :
    ∀ (index : Nat) (iv : Option Nat) (acc : List Dim),
    (∃ r, parseDims toks index iv acc = .ok r) ↔
      ((∀ tok ∈ toks, tok.data.contains ',' = false) ∧
       (∀ tok ∈ toks, (stripHash tok).data ≠ []) ∧
       countVariadicToks toks + (if iv.isSome then 1 else 0) ≤ 1) := by
  induction toks with
  | nil =>
    intro index iv acc
    constructor
    · intro _
      refine ⟨by simp, by simp, ?_⟩
      cases iv <;> simp [countVariadicToks]
    · intro _
      exact ⟨(acc.reverse, iv), rfl⟩
  | cons tok rest ih =>
    intro index iv acc
    rw [parseDims_cons]
    by_cases hc : tok.data.contains ',' = true
    · rw [if_pos hc]
      refine iff_of_false (by rintro ⟨r, hr⟩; exact Except.noConfusion hr) ?_
      rintro ⟨hA, -, -⟩
      have hA2 := hA tok (by simp)
      rw [hA2] at hc
      exact Bool.noConfusion hc
    · rw [if_neg hc]
      have hc2 : ',' ∉ tok.data := by simpa using hc
      rcases hint : pyInt (stripHash tok) with _ | n
      on_goal 2 =>
        have hne : (stripHash tok).data ≠ [] := by
          intro h0
          rw [pyInt_nil_data _ h0] at hint
          exact Option.noConfusion hint
        have hvar : isVariadicTok tok = false := by
          rw [isVariadicTok_def]
          by_cases hdots : stripHash tok = "..."
          · rw [hdots] at hint
            rw [show pyInt "..." = none from rfl] at hint
            exact Option.noConfusion hint
          · rw [if_neg hdots]
            rcases hdata : (stripHash tok).data with _ | ⟨c, cs⟩
            · rfl
            · by_cases hstar : c = '*'
              · subst hstar
                rw [pyInt_data_star _ _ hdata] at hint
                exact Option.noConfusion hint
              · simp [hstar]
        rw [ih]
        simp [List.forall_mem_cons, hc2, hne, countVariadicToks, List.filter_cons, hvar]
      on_goal 1 =>
        by_cases hu : stripHash tok = "_"
        · rw [if_pos hu]
          have hvar : isVariadicTok tok = false := by
            rw [isVariadicTok_def, hu]
            rfl
          rw [ih]
          have hne : (stripHash tok).data ≠ [] := by rw [hu]; simp
          simp [List.forall_mem_cons, hc2, hne, countVariadicToks, List.filter_cons, hvar]
        · rw [if_neg hu]
          by_cases hd : stripHash tok = "..."
          · rw [if_pos hd]
            have hvar : isVariadicTok tok = true := by
              rw [isVariadicTok_def, if_pos hd]
            cases iv with
            | some k =>
              refine iff_of_false (by rintro ⟨r, hr⟩; exact Except.noConfusion hr) ?_
              rintro ⟨-, -, hcount⟩
              simp [countVariadicToks, List.filter_cons, hvar] at hcount
            | none =>
              rw [ih]
              have hne : (stripHash tok).data ≠ [] := by rw [hd]; simp
              simp [List.forall_mem_cons, hc2, hne, countVariadicToks,
                List.filter_cons, hvar]
          · rw [if_neg hd]
            rcases hdata : (stripHash tok).data with _ | ⟨c, cs⟩
            · refine iff_of_false (by rintro ⟨r, hr⟩; exact Except.noConfusion hr) ?_
              rintro ⟨-, hB, -⟩
              exact hB tok (by simp) hdata
            · by_cases hstar : c = '*'
              · subst hstar
                simp only [if_true]
                have hvar : isVariadicTok tok = true := by
                  rw [isVariadicTok_def, if_neg hd, hdata]
                  rfl
                cases iv with
                | some k =>
                  refine iff_of_false (by rintro ⟨r, hr⟩; exact Except.noConfusion hr) ?_
                  rintro ⟨-, -, hcount⟩
                  simp [countVariadicToks, List.filter_cons, hvar] at hcount
                | none =>
                  rw [ih]
                  have hne : (stripHash tok).data ≠ [] := by rw [hdata]; simp
                  simp [List.forall_mem_cons, hc2, hne, countVariadicToks,
                    List.filter_cons, hvar]
              · simp only [if_neg hstar]
                have hvar : isVariadicTok tok = false := by
                  rw [isVariadicTok_def, if_neg hd, hdata]
                  simp [hstar]
                rw [ih]
                have hne : (stripHash tok).data ≠ [] := by rw [hdata]; simp
                simp [List.forall_mem_cons, hc2, hne, countVariadicToks,
                  List.filter_cons, hvar]

/-- A `commaInDims` failure of the parsing loop always exhibits a token
containing a comma. -/
theorem parseDims_comma_err (toks : List String) :
    ∀ index iv acc, parseDims toks index iv acc = .error .commaInDims →
    ∃ tok ∈ toks, tok.data.contains ',' = true := by
  induction toks with
  | nil =>
    intro index iv acc h
    exact Except.noConfusion h
  | cons tok rest ih =>
    intro index iv acc h
    rw [parseDims_cons] at h
    by_cases hc : tok.data.contains ',' = true
    · exact ⟨tok, by simp, hc⟩
    · rw [if_neg hc] at h
      repeat' split at h
      all_goals first
        | (simp at h)
        | (obtain ⟨t, ht, hct⟩ := ih _ _ _ h
           exact ⟨t, by simp [ht], hct⟩)

/-- On success the parsing loop appends exactly one dim per token, in input
order, each being its token's classification. -/
theorem parseDims_ok_dims (toks : List String) :
    ∀ index iv acc dims iv2, parseDims toks index iv acc = .ok (dims, iv2) →
    dims = acc.reverse ++ toks.map tokenToDim := by
  induction toks with
  | nil =>
    intro index iv acc dims iv2 h
    simp [parseDims] at h
    simp [← h.1]
  | cons tok rest ih =>
    intro index iv acc dims iv2 h
    rw [parseDims_cons] at h
    by_cases hc : tok.data.contains ',' = true
    · rw [if_pos hc] at h
      exact Except.noConfusion h
    · rw [if_neg hc] at h
      rcases hint : pyInt (stripHash tok) with _ | n
      on_goal 2 =>
        rw [hint] at h
        have htok : tokenToDim tok = .fixed n (endsHash tok) := by
          simp [tokenToDim, hint]
        rw [ih _ _ _ _ _ h]
        simp [htok]
      on_goal 1 =>
        rw [hint] at h
        by_cases hu : stripHash tok = "_"
        · rw [if_pos hu] at h
          have htok : tokenToDim tok = .anonymous := by
            simp only [tokenToDim, hint]
            rw [if_pos hu]
          rw [ih _ _ _ _ _ h]
          simp [htok]
        · rw [if_neg hu] at h
          by_cases hd : stripHash tok = "..."
          · rw [if_pos hd] at h
            cases iv with
            | some k => exact Except.noConfusion h
            | none =>
              have htok : tokenToDim tok = .anonymousVariadic := by
                simp only [tokenToDim, hint]
                rw [if_neg hu, if_pos hd]
              rw [ih _ _ _ _ _ h]
              simp [htok]
          · rw [if_neg hd] at h
            rcases hdata : (stripHash tok).data with _ | ⟨c, cs⟩
            · rw [hdata] at h
              exact Except.noConfusion h
            · rw [hdata] at h
              by_cases hstar : c = '*'
              · subst hstar
                simp only [if_true] at h
                cases iv with
                | some k => exact Except.noConfusion h
                | none =>
                  have htok : tokenToDim tok = .namedVariadic (String.mk cs)
                      (endsHash tok) := by
                    simp only [tokenToDim, hint]
                    rw [if_neg hu, if_neg hd, hdata]
                    simp only [if_true]
                  rw [ih _ _ _ _ _ h]
                  simp [htok]
              · simp only [if_neg hstar] at h
                have htok : tokenToDim tok = .named (stripHash tok) (endsHash tok) := by
                  simp only [tokenToDim, hint]
                  rw [if_neg hu, if_neg hd, hdata]
                  simp only [if_neg hstar]
                rw [ih _ _ _ _ _ h]
                simp [htok]

/-- Unfolding of `__getitem__` on string input. -/
theorem getitem_str (fmt : String) (dts : Option (List String)) (s : String) :
    getitem fmt dts (.str s) =
      match parseDims (pySplit s) 0 none [] with
      | .error e => .error e
      | .ok (dims, iv) =>
        if fmt = "dtype_and_shape" then .ok ⟨dts, dims, iv⟩
        else if fmt = "array" then .ok ⟨dts, dims, iv⟩
        else .error (.badNameFormat fmt) := rfl

/-- `__getitem__` with the default name format succeeds exactly when the
token loop does. -/
theorem getitem_default_ok_iff (dts : Option (List String)) (s : String) :
    (∃ d, getitem "dtype_and_shape" dts (.str s) = .ok d) ↔
      (∃ r, parseDims (pySplit s) 0 none [] = .ok r) := by
  unfold getitem
  rcases h : parseDims (pySplit s) 0 none [] with e | ⟨dims, iv⟩
  · simp [h]
  · simp [h]

/-! ## Claims about the parser -/

/-- Claim C6 counterexample: parsing the single-token spec `#` fails — with
the `IndexError` coming from `elem[0]` on the token left empty after
stripping the broadcast marker — although the input is a string, no token
contains a comma and no token is variadic, refuting the claimed
"exactly when" characterisation. -/
theorem C6_counterexample :
    getitem "dtype_and_shape" none (.str "#") = .error .indexError ∧
    (∀ tok ∈ pySplit "#", tok.data.contains ',' = false) ∧
    countVariadicToks (pySplit "#") = 0 := by
  refine ⟨rfl, by decide, rfl⟩

/-- Claim C6 (amended): with the default name format, parsing fails exactly
when the input is not a string, some token contains a comma, more than one
token is variadic, or some token is the bare broadcast marker `#` (whose
classification dereferences an empty token and raises `IndexError` instead
of a syntax error); the comma failure carries its own distinct message
directing the caller to use spaces, not commas. -/
theorem C6_parse_error_conditions :
    (∀ dts, getitem "dtype_and_shape" dts .nonStr = .error .notAString) ∧
    (∀ dts s, (∃ d, getitem "dtype_and_shape" dts (.str s) = .ok d) ↔
      ((∀ tok ∈ pySplit s, tok.data.contains ',' = false) ∧
       (∀ tok ∈ pySplit s, tok ≠ "#") ∧
       countVariadicToks (pySplit s) ≤ 1)) ∧
    (∀ dts s, getitem "dtype_and_shape" dts (.str s) = .error .commaInDims →
      ∃ tok ∈ pySplit s, tok.data.contains ',' = true) ∧
    errMessage .commaInDims = "Dimensions should be separated with spaces, not commas" ∧
    errMessage .commaInDims ≠ errMessage .multipleVariadic := by
  refine ⟨fun dts => rfl, fun dts s => ?_, fun dts s h => ?_, rfl, by decide⟩
  · rw [getitem_default_ok_iff, parseDims_ok_iff]
    have hbridge : (∀ tok ∈ pySplit s, (stripHash tok).data ≠ []) ↔
        (∀ tok ∈ pySplit s, tok ≠ "#") := by
      constructor
      · intro hyp tok htok heq
        exact hyp tok htok
          ((stripHash_empty_iff tok (pySplit_tok_ne_nil s tok htok)).mpr heq)
      · intro hyp tok htok heq
        exact hyp tok htok
          ((stripHash_empty_iff tok (pySplit_tok_ne_nil s tok htok)).mp heq)
    rw [hbridge]
    simp
  · rw [getitem_str] at h
    rcases hp : parseDims (pySplit s) 0 none [] with e | ⟨dims, iv⟩
    · rw [hp] at h
      simp at h
      subst h
      exact parseDims_comma_err (pySplit s) 0 none [] hp
    · rw [hp] at h
      simp at h

/-- Witness for C6: a well-formed spec parses, and a comma failure always
exhibits a comma-bearing token. -/
theorem C6_witness :
    (∃ d, getitem "dtype_and_shape" none (.str "a b") = .ok d) ∧
    (∃ tok ∈ pySplit "3,4", tok.data.contains ',' = true) := by
  constructor
  · exact (C6_parse_error_conditions.2.1 none "a b").mpr (by decide)
  · exact C6_parse_error_conditions.2.2.1 none "3,4" (by decide)

/-- Claim C7 counterexample: the token `-3` parses successfully, producing
a Fixed dim whose size is the negative integer `-3`. -/
theorem C7_counterexample :
    getitem "dtype_and_shape" none (.str "-3") =
      .ok ⟨none, [.fixed (-3) false], none⟩ ∧ (-3 : Int) < 0 :=
  ⟨by decide, by decide⟩

/-- Claim C7 (amended): in a successfully parsed declaration the dims are
exactly the per-token classifications in input order, and a token is
classified `Fixed` iff it reads as a Python integer — optional sign, so
possibly negative — after stripping a trailing `#`; the recorded size is
that integer and the stripped `#` is recorded as broadcastable. -/
theorem C7_fixed_token_semantics :
    (∀ (dts : Option (List String)) (s : String) (d : Decl),
      getitem "dtype_and_shape" dts (.str s) = .ok d →
      d.dims = (pySplit s).map tokenToDim) ∧
    (∀ (tok : String) (n : Int) (b : Bool), tokenToDim tok = .fixed n b →
      pyInt (stripHash tok) = some n ∧ b = endsHash tok) ∧
    (∀ (tok : String) (n : Int), pyInt (stripHash tok) = some n →
      tokenToDim tok = .fixed n (endsHash tok)) := by
  refine ⟨?_, ?_, ?_⟩
  · intro dts s d h
    rw [getitem_str] at h
    rcases hp : parseDims (pySplit s) 0 none [] with e | ⟨dims, iv⟩
    · rw [hp] at h
      exact Except.noConfusion h
    · rw [hp] at h
      simp at h
      have hdims := parseDims_ok_dims (pySplit s) 0 none [] dims iv hp
      rw [← h]
      simpa using hdims
  · intro tok n b h
    simp only [tokenToDim] at h
    rcases hint : pyInt (stripHash tok) with _ | m
    · rw [hint] at h
      by_cases hu : stripHash tok = "_"
      · rw [if_pos hu] at h
        exact Dim.noConfusion h
      · rw [if_neg hu] at h
        by_cases hd : stripHash tok = "..."
        · rw [if_pos hd] at h
          exact Dim.noConfusion h
        · rw [if_neg hd] at h
          rcases hdata : (stripHash tok).data with _ | ⟨c, cs⟩
          · rw [hdata] at h
            exact Dim.noConfusion h
          · rw [hdata] at h
            by_cases hstar : c = '*'
            · subst hstar
              simp only [if_true] at h
              exact Dim.noConfusion h
            · simp only [if_neg hstar] at h
              exact Dim.noConfusion h
    · rw [hint] at h
      injection h with h1 h2
      exact ⟨congrArg some h1, h2.symm⟩
  · intro tok n h
    simp [tokenToDim, h]

/-- Witness for C7: the spec `3 n -2#` parses with dims equal to the
per-token classification, and the token `-2#` is Fixed with size `-2` and
the broadcast marker recorded. -/
theorem C7_witness :
    ([Dim.fixed 3 false, .named "n" false, .fixed (-2) true] : List Dim) =
      (pySplit "3 n -2#").map tokenToDim ∧
    pyInt (stripHash "-2#") = some (-2) ∧
    tokenToDim "-2#" = .fixed (-2) (endsHash "-2#") := by
  refine ⟨?_, by decide, C7_fixed_token_semantics.2.2 "-2#" (-2) (by decide)⟩
  have h := C7_fixed_token_semantics.1 none "3 n -2#"
    ⟨none, [.fixed 3 false, .named "n" false, .fixed (-2) true], none⟩ (by decide)
  simpa using h

/-- Claim C8: parsing through the memoising cache is deterministic and
referentially transparent.  From any well-formed cache state the cached
parse returns exactly what an uncached parse of the same string returns,
and the cache stays well formed — so the outcome does not depend on how
many or which parses happened before; any two declarations obtained for
the same string from any two well-formed cache states are equal and
therefore match identically on all inputs (same dims, variadic index and
dtype set). -/
theorem C8_parse_cached_deterministic (fmt : String) (dts : Option (List String))
    (cache : DeclCache) (s : String) (hwf : cacheWF fmt dts cache) :
    (getitemCached fmt dts cache s).1 = getitem fmt dts (.str s) ∧
    cacheWF fmt dts (getitemCached fmt dts cache s).2 ∧
    (∀ (cache2 : DeclCache), cacheWF fmt dts cache2 →
      (getitemCached fmt dts cache2 s).1 = (getitemCached fmt dts cache s).1) ∧
    (∀ (cache2 : DeclCache) (d1 d2 : Decl), cacheWF fmt dts cache2 →
      (getitemCached fmt dts cache s).1 = .ok d1 →
      (getitemCached fmt dts cache2 s).1 = .ok d2 →
      d1 = d2 ∧ ∀ (obj : Obj) (stack : List Memo),
        instancecheck d1 obj stack = instancecheck d2 obj stack) := by
  have hmain : ∀ (c : DeclCache), cacheWF fmt dts c →
      (getitemCached fmt dts c s).1 = getitem fmt dts (.str s) ∧
      cacheWF fmt dts (getitemCached fmt dts c s).2 := by
    intro c hc
    rcases hf : cacheFind c s with _ | d
    · rcases hg : getitem fmt dts (.str s) with e | d
      · constructor
        · simp [getitemCached, hf, hg]
        · intro s2 d2 hfind
          apply hc
          simpa [getitemCached, hf, hg] using hfind
      · constructor
        · simp [getitemCached, hf, hg]
        · intro s2 d2 hfind
          simp only [getitemCached, hf, hg] at hfind
          rw [cacheFind] at hfind
          by_cases he : s = s2
          · subst he
            rw [if_pos rfl] at hfind
            injection hfind with hd2
            rw [← hd2]
            exact hg
          · rw [if_neg he] at hfind
            exact hc s2 d2 hfind
    · have hgd := hc s d hf
      constructor
      · simp [getitemCached, hf, hgd]
      · intro s2 d2 hfind
        apply hc
        simpa [getitemCached, hf] using hfind
  obtain ⟨h1, h2⟩ := hmain cache hwf
  refine ⟨h1, h2, fun c2 h2wf => (hmain c2 h2wf).1.trans h1.symm, ?_⟩
  intro c2 d1 d2 h2wf e1 e2
  have hg1 : getitem fmt dts (.str s) = .ok d1 := h1.symm.trans e1
  have hg2 : getitem fmt dts (.str s) = .ok d2 := ((hmain c2 h2wf).1).symm.trans e2
  have hd : d1 = d2 := by
    rw [hg1] at hg2
    injection hg2
  exact ⟨hd, fun obj stack => by rw [hd]⟩

/-- Witness for C8: the empty cache is well formed, and a cached parse from
it agrees with the uncached parse and leaves a well-formed cache. -/
theorem C8_witness :
    (getitemCached "dtype_and_shape" none [] "a b").1 =
      getitem "dtype_and_shape" none (.str "a b") ∧
    cacheWF "dtype_and_shape" none (getitemCached "dtype_and_shape" none [] "a b").2 := by
  have h := C8_parse_cached_deterministic "dtype_and_shape" none [] "a b"
    (fun s d hfind => Option.noConfusion hfind)
  exact ⟨h.1, h.2.1⟩

end Jaxtyping
